import Mathlib

/-!
Shallow embedding of the disk-partition filtering, deduplication and
sorting algorithm of `src/data/yxzt.py` (function `get_system_status_text`,
lines 92-154), together with the helper `create_bar` (lines 36-39), and
proofs of the specified properties.

The platform collaborators (`psutil.disk_partitions`, `psutil.disk_usage`,
`os.path.exists`) are inputs of the embedded function: a mount list, a
usage lookup returning `Option UsageSample` (`none` models the exception
swallowed by the `try/except` at lines 110-134), and a path-existence
predicate.
-/

namespace Yxzt

/-- A mounted filesystem as enumerated by `psutil.disk_partitions()`:
`device`, `mountpoint`, `fstype` fields as read at lines 100-107. -/
structure MountEntry where
  device : String
  mountpoint : String
  fstype : String
deriving DecidableEq

/-- A usage sample as returned by `psutil.disk_usage(mountpoint)`:
`total`, `used`, `free` byte counts and the `percent` field (only used
for display). -/
structure UsageSample where
  total : Nat
  used : Nat
  free : Nat
  percent : Rat
deriving DecidableEq

/-- Line 100: `'loop' in part.device`, substring containment. -/
def deviceHasLoop (device : String) : Bool :=
  decide ("loop".data <:+: device.data)

/-- Line 101: `part.fstype in ('squashfs', 'tmpfs', 'iso9660')`. -/
def excludedFstypes : List String := ["squashfs", "tmpfs", "iso9660"]

/-- Python `str.startswith`: the first argument's code points begin with
the second argument's. -/
def startsWithChars : List Char → List Char → Bool
  | _, [] => true
  | [], _ :: _ => false
  | c :: cs, d :: ds => c == d && startsWithChars cs ds

/-- Lines 103-107: the five `part.mountpoint.startswith(...)` checks,
each against a root directory name followed by a trailing slash. -/
def excludedPathStarts : List String := ["/etc/", "/proc/", "/sys/", "/run/", "/dev/"]

def startsWithExcluded (mountpoint : String) : Bool :=
  excludedPathStarts.any (fun root => startsWithChars mountpoint.data root.data)

/-- Lines 100-107: the whole `if` that `continue`s past a partition before
any usage lookup happens. -/
def isSkipped (pathExists : String → Bool) (part : MountEntry) : Bool :=
  deviceHasLoop part.device ||
  excludedFstypes.contains part.fstype ||
  !(pathExists part.mountpoint) ||
  startsWithExcluded part.mountpoint

/-- Line 114: the 1 GiB threshold `1 * (1024**3)`. -/
def minTotalBytes : Nat := 1 * 1024 ^ 3

/-- Line 119: `key = (usage.total, usage.used)`. -/
def statKey (p : String × UsageSample) : Nat × Nat := (p.2.total, p.2.used)

/-- The two loop-local accumulators of lines 95-96: the `real_partitions`
list and the `seen_mount_stats` dict (modelled as an insertion-ordered
association list, which is how CPython dicts behave). -/
structure ScanState where
  real_partitions : List (String × UsageSample)
  seen_mount_stats : List ((Nat × Nat) × String)
deriving DecidableEq

/-- Dict lookup `seen_mount_stats[key]` / membership `key in seen_mount_stats`. -/
def lookupStat : List ((Nat × Nat) × String) → Nat × Nat → Option String
  | [], _ => none
  | e :: rest, k => if e.1 = k then some e.2 else lookupStat rest k

/-- Dict assignment `seen_mount_stats[key] = mp`: replaces the value of an
existing key in place, otherwise appends a fresh binding. -/
def setStat : List ((Nat × Nat) × String) → Nat × Nat → String → List ((Nat × Nat) × String)
  | [], k, v => [(k, v)]
  | e :: rest, k, v => if e.1 = k then (k, v) :: rest else e :: setStat rest k v

/-- Lines 124-128: linear scan of `real_partitions` for the first entry
whose mount point equals the previously recorded one, replacing it in
place; `none` when no entry matches (in which case the source leaves both
`real_partitions` and `seen_mount_stats` untouched). -/
def replaceShorter :
    List (String × UsageSample) → String → String × UsageSample →
    Option (List (String × UsageSample))
  | [], _, _ => none
  | p :: rest, old, new =>
    if p.1 = old then some (new :: rest)
    else (replaceShorter rest old new).map (fun l => p :: l)

/-- One iteration of the `for part in partitions` loop, lines 98-134. -/
def processPart (usageOf : String → Option UsageSample) (pathExists : String → Bool)
    (st : ScanState) (part : MountEntry) : ScanState :=
  if isSkipped pathExists part then st else
  match usageOf part.mountpoint with
  | none => st
  | some usage =>
    if usage.total < minTotalBytes then st else
    -- line 119: key = (usage.total, usage.used)
    match lookupStat st.seen_mount_stats (usage.total, usage.used) with
    | some prev =>
      if part.mountpoint.length < prev.length then
        match replaceShorter st.real_partitions prev (part.mountpoint, usage) with
        | some rp => ⟨rp, setStat st.seen_mount_stats (usage.total, usage.used) part.mountpoint⟩
        | none => st
      else st
    | none =>
      ⟨st.real_partitions ++ [(part.mountpoint, usage)],
       setStat st.seen_mount_stats (usage.total, usage.used) part.mountpoint⟩

/-- The whole loop of lines 98-134, started from the empty accumulators of
lines 95-96. -/
def scanParts (mounts : List MountEntry) (usageOf : String → Option UsageSample)
    (pathExists : String → Bool) : ScanState :=
  mounts.foldl (processPart usageOf pathExists) ⟨[], []⟩

/-- Python string `<`: lexicographic comparison of code points
(`str.__lt__`), used by `list.sort(key=lambda x: x[0])` at line 137. -/
def strLtb : List Char → List Char → Bool
  | [], [] => false
  | [], _ :: _ => true
  | _ :: _, [] => false
  | a :: as, b :: bs =>
    if a < b then true
    else if b < a then false
    else strLtb as bs

/-- The non-strict order induced by `strLtb`. -/
def strLeb (a b : String) : Bool := !(strLtb b.data a.data)

/-- The sort relation of line 137: compare entries by their mount point. -/
def mountLe (p q : String × UsageSample) : Prop := strLeb p.1 q.1 = true

instance : DecidableRel mountLe := fun p q =>
  inferInstanceAs (Decidable (strLeb p.1 q.1 = true))

/-- Line 137: `real_partitions.sort(key=lambda x: x[0])` — a stable sort
ascending by mount point (insertion sort is stable, like Timsort, and the
sorted lists agree). -/
def sortPartitions (l : List (String × UsageSample)) : List (String × UsageSample) :=
  List.insertionSort mountLe l

/-- The whole disk-selection pipeline, lines 92-137: the spec's
`selectReportableDisks(mounts, usageOf)` (with the `os.path.exists` check
as an extra input predicate). -/
def selectReportableDisks (mounts : List MountEntry) (usageOf : String → Option UsageSample)
    (pathExists : String → Bool) : List (String × UsageSample) :=
  sortPartitions (scanParts mounts usageOf pathExists).real_partitions

/-- The mount points for which `psutil.disk_usage` is invoked, in order:
the loop of lines 98-111 reaches the usage call exactly for the parts not
skipped by the filter of lines 100-108. -/
def usageCalls (mounts : List MountEntry) (pathExists : String → Bool) : List String :=
  (mounts.filter (fun part => !(isSkipped pathExists part))).map
    (fun part => part.mountpoint)

/-- Line 151: the text emitted when `real_partitions` is empty. -/
def noDataLine : String := "│ 未找到或无法读取主要磁盘信息。"

/-- Lines 140-151: the disk section of the report. Each surviving entry is
rendered by `fmtEntry` (the four lines built at 144-149 from `format_bytes`
and `create_bar`, abstracted here because they format floating-point
values); entries after the first are preceded by a `"│"` separator
(lines 142-143); an empty list yields the single no-data line (line 151). -/
def diskSectionLines (fmtEntry : String → UsageSample → List String) :
    List (String × UsageSample) → List String
  | [] => [noDataLine]
  | p :: rest =>
    fmtEntry p.1 p.2 ++
      (rest.map (fun q => "│" :: fmtEntry q.1 q.2)).flatten

/-- Lines 36-39: `create_bar(percent, length=15)`. The float `percent` is
modelled as a rational; `int(length * percent // 100)` is floor division
of a non-negative value. -/
def create_bar (percent : Rat) (len : Nat) : String :=
  let pct := if 0 ≤ percent ∧ percent ≤ 100 then percent else 0
  let filled_length := (⌊((len : Rat) * pct) / 100⌋).toNat
  "[" ++ String.mk (List.replicate filled_length '■' ++
    List.replicate (len - filled_length) '□') ++ "]"

/-- The number of filled cells computed at line 38:
`int(length * percent // 100)` after the clamp of line 37. -/
def barFilled (percent : Rat) (len : Nat) : Nat :=
  (⌊((len : Rat) * (if 0 ≤ percent ∧ percent ≤ 100 then percent else 0)) / 100⌋).toNat

/-- The dict binding a `real_partitions` entry contributes:
its `(total, used)` key paired with its mount point. -/
@[reducible] def pairOf (p : String × UsageSample) : (Nat × Nat) × String := (statKey p, p.1)

/-- Invariant of the loop of lines 98-134: `seen_mount_stats` mirrors
`real_partitions` binding by binding, the `(total, used)` keys and the
mount points are both duplicate-free, and every collected entry passed the
usage lookup (line 111) and the size threshold (line 114). -/
def ScanInv (usageOf : String → Option UsageSample) (st : ScanState) : Prop :=
  st.seen_mount_stats = st.real_partitions.map pairOf ∧
  (st.real_partitions.map statKey).Nodup ∧
  (st.real_partitions.map (fun p => p.1)).Nodup ∧
  ∀ p ∈ st.real_partitions, usageOf p.1 = some p.2 ∧ minTotalBytes ≤ p.2.total

/-! ### Concrete fixtures for the claim theorems -/

/-- Three ordinary mounts `/var`, `/`, `/home` with distinct usage keys
above the threshold. -/
def mountsThree : List MountEntry :=
  [⟨"/dev/sda1", "/var", "ext4"⟩, ⟨"/dev/sda2", "/", "ext4"⟩, ⟨"/dev/sda3", "/home", "ext4"⟩]

def usageThree : String → Option UsageSample := fun mp =>
  if mp = "/var" then some ⟨2 * 1024 ^ 3, 1000, 2 * 1024 ^ 3 - 1000, 50⟩ else
  if mp = "/" then some ⟨3 * 1024 ^ 3, 2000, 3 * 1024 ^ 3 - 2000, 50⟩ else
  if mp = "/home" then some ⟨4 * 1024 ^ 3, 3000, 4 * 1024 ^ 3 - 3000, 50⟩ else none

/-- The two bind-mount aliases of the spec's shorter-path test. -/
def bindMounts : List MountEntry :=
  [⟨"/dev/sdb1", "/data", "ext4"⟩, ⟨"/dev/sdb1", "/mnt/data/bind", "ext4"⟩]

/-- The byte counts the claim itself specifies: 100 total, 50 used. -/
def bindUsageSmall : String → Option UsageSample := fun mp =>
  if mp = "/data" ∨ mp = "/mnt/data/bind" then some ⟨100, 50, 50, 50⟩ else none

/-- Above-threshold variant of the duplicate usage sample. -/
def bindSample : UsageSample := ⟨2 * 1024 ^ 3, 50, 2 * 1024 ^ 3 - 50, 0⟩

def bindUsage : String → Option UsageSample := fun mp =>
  if mp = "/data" ∨ mp = "/mnt/data/bind" then some bindSample else none

/-- Two equal-length mount points with the same usage key: the later one
is not strictly shorter, so it must be discarded. -/
def tieMounts : List MountEntry :=
  [⟨"/dev/sdb1", "/aa", "ext4"⟩, ⟨"/dev/sdb1", "/ab", "ext4"⟩]

def tieUsage : String → Option UsageSample := fun mp =>
  if mp = "/aa" ∨ mp = "/ab" then some bindSample else none

/-- Three otherwise-valid mounts where the usage lookup fails for `/b`. -/
def dropMounts : List MountEntry :=
  [⟨"/dev/sdd1", "/a", "ext4"⟩, ⟨"/dev/sdd2", "/b", "ext4"⟩, ⟨"/dev/sdd3", "/c", "ext4"⟩]

def dropSampleA : UsageSample := ⟨2 * 1024 ^ 3, 10, 2 * 1024 ^ 3 - 10, 0⟩

def dropSampleC : UsageSample := ⟨3 * 1024 ^ 3, 20, 3 * 1024 ^ 3 - 20, 0⟩

def dropUsage : String → Option UsageSample := fun mp =>
  if mp = "/a" then some dropSampleA else
  if mp = "/c" then some dropSampleC else none

/-- A 2 GiB mount with no exclusion criterion. -/
def bigMount : MountEntry := ⟨"/dev/sdc1", "/big", "ext4"⟩

def bigSample : UsageSample := ⟨2 * 1024 ^ 3, 512, 2 * 1024 ^ 3 - 512, 0⟩

def bigUsage : String → Option UsageSample := fun mp =>
  if mp = "/big" then some bigSample else none

/-- The spec's prefix-exclusion test mount: 5 GiB at `/proc/mounted-extra`. -/
def procMount : MountEntry := ⟨"/dev/sda9", "/proc/mounted-extra", "ext4"⟩

def procUsage : String → Option UsageSample := fun _ =>
  some ⟨5 * 1024 ^ 3, 1, 5 * 1024 ^ 3 - 1, 0⟩

/-- A mount removed by the fstype filter, so that nothing survives. -/
def tmpfsMount : MountEntry := ⟨"tmpfs", "/tmp", "tmpfs"⟩

/-! ### The strict code-point order is a strict total order -/

theorem strLtb_asymm : ∀ a b, strLtb a b = true → strLtb b a = false
  | [], [] => by simp [strLtb]
  | [], _ :: _ => by simp [strLtb]
  | _ :: _, [] => by simp [strLtb]
  | a :: as, b :: bs => by
    simp only [strLtb]
    rcases lt_trichotomy a b with h1 | h1 | h1
    · simp [h1, not_lt_of_lt h1]
    · subst h1
      simp only [if_neg (lt_irrefl a)]
      exact strLtb_asymm as bs
    · simp [h1, not_lt_of_lt h1]

theorem strLtb_eq_of_both_false : ∀ a b, strLtb a b = false → strLtb b a = false → a = b
  | [], [], _, _ => rfl
  | [], _ :: _, h, _ => by simp [strLtb] at h
  | _ :: _, [], _, h => by simp [strLtb] at h
  | a :: as, b :: bs, h1, h2 => by
    simp only [strLtb] at h1 h2
    rcases lt_trichotomy a b with hc | hc | hc
    · simp [hc] at h1
    · subst hc
      simp [lt_irrefl] at h1 h2
      rw [strLtb_eq_of_both_false as bs h1 h2]
    · simp [hc] at h2

theorem strLtb_trans : ∀ a b c, strLtb a b = true → strLtb b c = true → strLtb a c = true
  | [], b, [], _, h => by cases b <;> simp [strLtb] at h
  | [], [], _ :: _, h, _ => by simp [strLtb] at h
  | [], _ :: _, _ :: _, _, _ => by simp [strLtb]
  | _ :: _, [], _, h, _ => by simp [strLtb] at h
  | _ :: _, _ :: _, [], _, h => by simp [strLtb] at h
  | a :: as, b :: bs, c :: cs, h1, h2 => by
    simp only [strLtb] at h1 h2 ⊢
    rcases lt_trichotomy a b with hab | hab | hab
    · rcases lt_trichotomy b c with hbc | hbc | hbc
      · simp [lt_trans hab hbc]
      · subst hbc; simp [hab]
      · simp [hbc, not_lt_of_lt hbc] at h2
    · subst hab
      rcases lt_trichotomy a c with hbc | hbc | hbc
      · simp [hbc]
      · subst hbc
        simp [lt_irrefl] at h1 h2 ⊢
        exact strLtb_trans as bs cs h1 h2
      · simp [hbc, not_lt_of_lt hbc] at h2
    · simp [hab, not_lt_of_lt hab] at h1

theorem strLeb_total (a b : String) : strLeb a b = true ∨ strLeb b a = true := by
  unfold strLeb
  cases hab : strLtb a.data b.data
  · right; simp [hab]
  · left; simp [strLtb_asymm _ _ hab]

theorem strLeb_trans {a b c : String} (h1 : strLeb a b = true) (h2 : strLeb b c = true) :
    strLeb a c = true := by
  unfold strLeb at h1 h2 ⊢
  rw [Bool.not_eq_true'] at h1 h2 ⊢
  cases hca : strLtb c.data a.data
  · rfl
  · exfalso
    cases hbc : strLtb b.data c.data
    · have hcb := strLtb_eq_of_both_false _ _ h2 hbc
      rw [← hcb] at h1
      rw [hca] at h1
      exact Bool.noConfusion h1
    · rw [strLtb_trans _ _ _ hbc hca] at h1
      exact Bool.noConfusion h1

instance : IsTotal (String × UsageSample) mountLe :=
  ⟨fun p q => strLeb_total p.1 q.1⟩

instance : IsTrans (String × UsageSample) mountLe :=
  ⟨fun _ _ _ h1 h2 => strLeb_trans h1 h2⟩

/-- `strLeb` is antisymmetric: used to rule out ties between distinct
mount points. -/
theorem strLeb_antisymm {a b : String} (h1 : strLeb a b = true) (h2 : strLeb b a = true) :
    a = b := by
  unfold strLeb at h1 h2
  rw [Bool.not_eq_true'] at h1 h2
  have hd := strLtb_eq_of_both_false _ _ h2 h1
  cases a; cases b
  exact congrArg String.mk hd

/-! ### The invariant maintained by the dedup loop -/

theorem lookupStat_eq_none {s : List ((Nat × Nat) × String)} {k : Nat × Nat} :
    lookupStat s k = none ↔ ∀ e ∈ s, e.1 ≠ k := by
  induction s with
  | nil => simp [lookupStat]
  | cons e rest ih =>
    by_cases h : e.1 = k
    · simp [lookupStat, h]
    · simp [lookupStat, h, ih]

theorem lookupStat_mem {s : List ((Nat × Nat) × String)} {k : Nat × Nat} {v : String}
    (h : lookupStat s k = some v) : (k, v) ∈ s := by
  induction s with
  | nil => simp [lookupStat] at h
  | cons e rest ih =>
    by_cases he : e.1 = k
    · rw [lookupStat, if_pos he] at h
      injection h with h2
      obtain ⟨k1, v1⟩ := e
      subst he; subst h2
      exact List.mem_cons_self _ _
    · rw [lookupStat, if_neg he] at h
      exact List.mem_cons_of_mem _ (ih h)

theorem setStat_fresh {s : List ((Nat × Nat) × String)} {k : Nat × Nat} {v : String}
    (h : ∀ e ∈ s, e.1 ≠ k) : setStat s k v = s ++ [(k, v)] := by
  induction s with
  | nil => rfl
  | cons e rest ih =>
    rw [setStat, if_neg (h e (List.mem_cons_self _ _)),
      ih (fun e' he' => h e' (List.mem_cons_of_mem _ he'))]
    rfl

/-- Core correctness of the in-place replacement of lines 122-128: under
the invariant, the linear scan finds exactly the entry recorded for `k`,
and replacing it keeps the key multiset, keeps mount points duplicate-free
and updates the dict consistently. -/
theorem replaceShorter_spec (usageOf : String → Option UsageSample)
    (k : Nat × Nat) (mp : String) (usage : UsageSample)
    (hmp : usageOf mp = some usage) (hkey : statKey (mp, usage) = k) :
    ∀ (rp : List (String × UsageSample)) (prev : String),
    (rp.map statKey).Nodup →
    (rp.map (fun p => p.1)).Nodup →
    (∀ p ∈ rp, usageOf p.1 = some p.2) →
    lookupStat (rp.map pairOf) k = some prev →
    ∃ rp', replaceShorter rp prev (mp, usage) = some rp' ∧
      rp'.map pairOf = setStat (rp.map pairOf) k mp ∧
      rp'.map statKey = rp.map statKey ∧
      (rp'.map (fun p => p.1)).Nodup ∧
      ∀ p ∈ rp', p = (mp, usage) ∨ p ∈ rp
  | [], prev => by
    intro _ _ _ hl
    simp [lookupStat] at hl
  | p :: rest, prev => by
    intro hknd hfnd hprop hl
    rw [List.map_cons, List.nodup_cons] at hknd
    rw [List.map_cons, List.nodup_cons] at hfnd
    rw [List.map_cons, lookupStat] at hl
    by_cases hpk : statKey p = k
    · rw [if_pos hpk] at hl
      injection hl with hprev
      refine ⟨(mp, usage) :: rest, ?_, ?_, ?_, ?_, ?_⟩
      · rw [replaceShorter, if_pos hprev]
      · rw [List.map_cons]
        simp only [setStat]
        rw [if_pos hpk]
        show (statKey (mp, usage), mp) :: _ = (k, mp) :: _
        rw [hkey]
      · rw [List.map_cons, List.map_cons, hkey, hpk]
      · rw [List.map_cons, List.nodup_cons]
        refine ⟨?_, hfnd.2⟩
        intro hmem
        obtain ⟨q, hq, hqmp⟩ := List.mem_map.mp hmem
        have hu := hprop q (List.mem_cons_of_mem _ hq)
        rw [hqmp, hmp] at hu
        injection hu with hu2
        refine hknd.1 (List.mem_map.mpr ⟨q, hq, ?_⟩)
        show statKey q = statKey p
        unfold statKey
        rw [← hu2]
        show statKey (mp, usage) = statKey p
        rw [hkey, hpk]
      · intro q hq
        rcases List.mem_cons.mp hq with hq1 | hq2
        · exact Or.inl hq1
        · exact Or.inr (List.mem_cons_of_mem _ hq2)
    · rw [if_neg hpk] at hl
      obtain ⟨rp'', hrs, hmap, hkeys, hnd, hsub⟩ :=
        replaceShorter_spec usageOf k mp usage hmp hkey rest prev hknd.2 hfnd.2
          (fun q hq => hprop q (List.mem_cons_of_mem _ hq)) hl
      have hprev_mem : prev ∈ rest.map (fun p => p.1) := by
        have := lookupStat_mem hl
        obtain ⟨q, hq, hqp⟩ := List.mem_map.mp this
        refine List.mem_map.mpr ⟨q, hq, ?_⟩
        have : (pairOf q).2 = (k, prev).2 := by rw [hqp]
        exact this
      have hpne : p.1 ≠ prev := by
        intro hcontra
        rw [hcontra] at hfnd
        exact hfnd.1 hprev_mem
      have hpmp : p.1 ≠ mp := by
        intro hcontra
        have hu := hprop p (List.mem_cons_self _ _)
        rw [hcontra, hmp] at hu
        injection hu with hu2
        refine hpk ?_
        show statKey p = k
        unfold statKey
        rw [← hu2]
        exact hkey
      refine ⟨p :: rp'', ?_, ?_, ?_, ?_, ?_⟩
      · rw [replaceShorter, if_neg hpne, hrs]
        rfl
      · rw [List.map_cons, List.map_cons, setStat]
        rw [if_neg (by exact hpk : (pairOf p).1 ≠ k), hmap]
      · rw [List.map_cons, List.map_cons, hkeys]
      · rw [List.map_cons, List.nodup_cons]
        refine ⟨?_, hnd⟩
        intro hmem
        obtain ⟨q, hq, hqp⟩ := List.mem_map.mp hmem
        rcases hsub q hq with hq1 | hq2
        · rw [hq1] at hqp
          exact hpmp hqp.symm
        · exact hfnd.1 (List.mem_map.mpr ⟨q, hq2, hqp⟩)
      · intro q hq
        rcases List.mem_cons.mp hq with hq1 | hq2
        · exact Or.inr (hq1 ▸ List.mem_cons_self _ _)
        · rcases hsub q hq2 with hq3 | hq4
          · exact Or.inl hq3
          · exact Or.inr (List.mem_cons_of_mem _ hq4)

/-- One loop iteration preserves the invariant. -/
theorem processPart_inv (usageOf : String → Option UsageSample) (pathExists : String → Bool)
    (part : MountEntry) (st : ScanState) (h : ScanInv usageOf st) :
    ScanInv usageOf (processPart usageOf pathExists st part) := by
  unfold processPart
  by_cases hskip : isSkipped pathExists part
  · rw [if_pos hskip]; exact h
  rw [if_neg hskip]
  cases hu : usageOf part.mountpoint with
  | none => exact h
  | some usage =>
    dsimp only
    by_cases hsz : usage.total < minTotalBytes
    · rw [if_pos hsz]; exact h
    rw [if_neg hsz]
    obtain ⟨hseen, hknd, hfnd, hprop⟩ := h
    have hthr : minTotalBytes ≤ usage.total := Nat.le_of_not_lt hsz
    cases hl : lookupStat st.seen_mount_stats (usage.total, usage.used) with
    | none =>
      rw [hseen] at hl
      have hfresh : ∀ p ∈ st.real_partitions, statKey p ≠ (usage.total, usage.used) := by
        intro p hp
        have := lookupStat_eq_none.mp hl (pairOf p) (List.mem_map.mpr ⟨p, hp, rfl⟩)
        exact this
      refine ⟨?_, ?_, ?_, ?_⟩
      · show setStat st.seen_mount_stats _ _ = _
        rw [hseen, setStat_fresh, List.map_append]
        · rfl
        · intro e he
          obtain ⟨p, hp, rfl⟩ := List.mem_map.mp he
          exact hfresh p hp
      · show (List.map statKey (st.real_partitions ++ [(part.mountpoint, usage)])).Nodup
        rw [List.map_append]
        rw [List.nodup_append]
        refine ⟨hknd, List.nodup_singleton _, ?_⟩
        intro x hx hx2
        simp only [List.map_cons, List.map_nil, List.mem_cons, List.not_mem_nil,
          or_false] at hx2
        obtain ⟨p, hp, hps⟩ := List.mem_map.mp hx
        rw [hx2] at hps
        exact hfresh p hp hps
      · show (List.map (fun p => p.1) (st.real_partitions ++ [(part.mountpoint, usage)])).Nodup
        rw [List.map_append, List.nodup_append]
        refine ⟨hfnd, List.nodup_singleton _, ?_⟩
        intro x hx hx2
        simp only [List.map_cons, List.map_nil, List.mem_cons, List.not_mem_nil,
          or_false] at hx2
        obtain ⟨p, hp, hps⟩ := List.mem_map.mp hx
        have hup := (hprop p hp).1
        rw [hx2] at hps
        rw [hps, hu] at hup
        injection hup with hu2
        refine hfresh p hp ?_
        show (p.2.total, p.2.used) = (usage.total, usage.used)
        rw [← hu2]
      · intro p hp
        rcases List.mem_append.mp hp with hp1 | hp2
        · exact hprop p hp1
        · simp only [List.mem_singleton] at hp2
          subst hp2
          exact ⟨hu, hthr⟩
    | some prev =>
      dsimp only
      by_cases hlen : part.mountpoint.length < prev.length
      · rw [if_pos hlen]
        rw [hseen] at hl
        obtain ⟨rp', hrs, hmap, hkeys, hnd, hsub⟩ :=
          replaceShorter_spec usageOf (usage.total, usage.used) part.mountpoint usage hu rfl
            st.real_partitions prev hknd hfnd (fun q hq => (hprop q hq).1) hl
        rw [hrs]
        refine ⟨?_, ?_, ?_, ?_⟩
        · show setStat st.seen_mount_stats _ _ = _
          rw [hseen, hmap]
        · show (List.map statKey rp').Nodup
          rw [hkeys]; exact hknd
        · exact hnd
        · intro p hp
          rcases hsub p hp with hp1 | hp2
          · subst hp1
            exact ⟨hu, hthr⟩
          · exact hprop p hp2
      · rw [if_neg hlen]
        exact ⟨hseen, hknd, hfnd, hprop⟩

/-- The invariant holds after the whole loop. -/
theorem scanParts_inv (mounts : List MountEntry) (usageOf : String → Option UsageSample)
    (pathExists : String → Bool) : ScanInv usageOf (scanParts mounts usageOf pathExists) := by
  have init : ScanInv usageOf ⟨[], []⟩ := by
    refine ⟨rfl, List.nodup_nil, List.nodup_nil, ?_⟩
    intro p hp
    simp at hp
  unfold scanParts
  generalize hst : (⟨[], []⟩ : ScanState) = st at init
  clear hst
  induction mounts generalizing st with
  | nil => exact init
  | cons part rest ih =>
    rw [List.foldl_cons]
    exact ih _ (processPart_inv usageOf pathExists part st init)

/-! ### Helper lemmas shared by the claim proofs -/

/-- Sorting only permutes the collected partitions. -/
theorem select_perm (mounts : List MountEntry) (usageOf : String → Option UsageSample)
    (pathExists : String → Bool) :
    (selectReportableDisks mounts usageOf pathExists).Perm
      (scanParts mounts usageOf pathExists).real_partitions :=
  List.perm_insertionSort mountLe _

/-- A partition hit by the filter of lines 100-108 leaves the loop state
untouched (`continue` before the usage lookup). -/
theorem processPart_skipped {pathExists : String → Bool} {part : MountEntry}
    (usageOf : String → Option UsageSample) (st : ScanState)
    (hskip : isSkipped pathExists part = true) :
    processPart usageOf pathExists st part = st := by
  unfold processPart
  rw [if_pos hskip]

/-- A partition whose usage lookup raises (line 111, swallowed at
line 133) leaves the loop state untouched. -/
theorem processPart_usage_none {usageOf : String → Option UsageSample} {part : MountEntry}
    (pathExists : String → Bool) (st : ScanState)
    (hu : usageOf part.mountpoint = none) :
    processPart usageOf pathExists st part = st := by
  unfold processPart
  by_cases hskip : isSkipped pathExists part
  · rw [if_pos hskip]
  · rw [if_neg hskip, hu]

/-- Inserting a partition whose iteration is a no-op anywhere in the mount
list does not change the scan result. -/
theorem scanParts_insert_noop (ms1 ms2 : List MountEntry) (part : MountEntry)
    (usageOf : String → Option UsageSample) (pathExists : String → Bool)
    (hstep : ∀ st, processPart usageOf pathExists st part = st) :
    scanParts (ms1 ++ part :: ms2) usageOf pathExists =
      scanParts (ms1 ++ ms2) usageOf pathExists := by
  unfold scanParts
  rw [List.foldl_append, List.foldl_append, List.foldl_cons, hstep]

/-- If every mount is filtered out, the scan ends in the initial state. -/
theorem scanParts_all_skipped {mounts : List MountEntry} {pathExists : String → Bool}
    (usageOf : String → Option UsageSample)
    (h : ∀ part ∈ mounts, isSkipped pathExists part = true) :
    scanParts mounts usageOf pathExists = ⟨[], []⟩ := by
  unfold scanParts
  induction mounts with
  | nil => rfl
  | cons part rest ih =>
    rw [List.foldl_cons, processPart_skipped usageOf _ (h part (List.mem_cons_self _ _))]
    exact ih (fun q hq => h q (List.mem_cons_of_mem _ hq))

/-- One iteration only consults `usageOf` and `pathExists` at the
partition's own mount point. -/
theorem processPart_congr (u1 u2 : String → Option UsageSample) (e1 e2 : String → Bool)
    (part : MountEntry) (st : ScanState)
    (hu : u1 part.mountpoint = u2 part.mountpoint)
    (he : e1 part.mountpoint = e2 part.mountpoint) :
    processPart u1 e1 st part = processPart u2 e2 st part := by
  unfold processPart isSkipped
  rw [hu, he]

/-- The scan result only depends on the values of `usageOf` and
`pathExists` at the mount points that occur in the list. -/
theorem scanParts_congr {mounts : List MountEntry} (u1 u2 : String → Option UsageSample)
    (e1 e2 : String → Bool)
    (h : ∀ part ∈ mounts, u1 part.mountpoint = u2 part.mountpoint ∧
      e1 part.mountpoint = e2 part.mountpoint) :
    scanParts mounts u1 e1 = scanParts mounts u2 e2 := by
  unfold scanParts
  generalize (⟨[], []⟩ : ScanState) = st
  induction mounts generalizing st with
  | nil => rfl
  | cons part rest ih =>
    rw [List.foldl_cons, List.foldl_cons]
    rw [processPart_congr u1 u2 e1 e2 part st (h part (List.mem_cons_self _ _)).1
      (h part (List.mem_cons_self _ _)).2]
    exact ih (fun q hq => h q (List.mem_cons_of_mem _ hq)) _

theorem create_bar_eq (percent : Rat) (len : Nat) :
    create_bar percent len =
      "[" ++ String.mk (List.replicate (barFilled percent len) '■' ++
        List.replicate (len - barFilled percent len) '□') ++ "]" := rfl

theorem barFilled_le (percent : Rat) (len : Nat) : barFilled percent len ≤ len := by
  unfold barFilled
  set pct := if 0 ≤ percent ∧ percent ≤ 100 then percent else 0 with hpct
  have h0 : 0 ≤ pct ∧ pct ≤ 100 := by
    rw [hpct]
    by_cases h : 0 ≤ percent ∧ percent ≤ 100
    · rw [if_pos h]; exact h
    · rw [if_neg h]; norm_num
  have hle : (len : Rat) * pct / 100 ≤ (len : Rat) := by
    rw [div_le_iff₀ (by norm_num : (0 : ℚ) < 100)]
    exact mul_le_mul_of_nonneg_left h0.2 (by positivity)
  have hfl := Int.floor_le_floor hle
  rw [Int.floor_natCast] at hfl
  exact Int.toNat_le.mpr hfl

/-- Two surviving mounts (in an otherwise empty enumeration) whose usage
samples share the `(total, used)` key: whichever is enumerated first, the
single reported entry carries the strictly shorter mount point together
with that mount's own usage sample. -/
theorem select_two_same_key (m1 m2 : MountEntry) (usageOf : String → Option UsageSample)
    (pathExists : String → Bool) (u1 u2 : UsageSample)
    (hs1 : isSkipped pathExists m1 = false) (hs2 : isSkipped pathExists m2 = false)
    (hu1 : usageOf m1.mountpoint = some u1) (hu2 : usageOf m2.mountpoint = some u2)
    (hkey : (u1.total, u1.used) = (u2.total, u2.used))
    (hthr : minTotalBytes ≤ u1.total)
    (hlen : m1.mountpoint.length < m2.mountpoint.length) :
    selectReportableDisks [m1, m2] usageOf pathExists = [(m1.mountpoint, u1)] ∧
    selectReportableDisks [m2, m1] usageOf pathExists = [(m1.mountpoint, u1)] := by
  have hkey2 : u1.total = u2.total ∧ u1.used = u2.used := by
    rw [Prod.mk.injEq] at hkey
    exact hkey
  have hthr2 : minTotalBytes ≤ u2.total := hkey2.1 ▸ hthr
  have hn1 : ¬ u1.total < minTotalBytes := Nat.not_lt.mpr hthr
  have hn2 : ¬ u2.total < minTotalBytes := Nat.not_lt.mpr hthr2
  have hnl : ¬ m2.mountpoint.length < m1.mountpoint.length :=
    Nat.not_lt.mpr (Nat.le_of_lt hlen)
  have h1 : processPart usageOf pathExists ⟨[], []⟩ m1 =
      ⟨[(m1.mountpoint, u1)], [((u1.total, u1.used), m1.mountpoint)]⟩ := by
    simp [processPart, hs1, hu1, hn1, lookupStat, setStat]
  have h2 : processPart usageOf pathExists
      ⟨[(m1.mountpoint, u1)], [((u1.total, u1.used), m1.mountpoint)]⟩ m2 =
      ⟨[(m1.mountpoint, u1)], [((u1.total, u1.used), m1.mountpoint)]⟩ := by
    simp [processPart, hs2, hu2, hn2, lookupStat, hkey, hnl]
  have h1r : processPart usageOf pathExists ⟨[], []⟩ m2 =
      ⟨[(m2.mountpoint, u2)], [((u2.total, u2.used), m2.mountpoint)]⟩ := by
    simp [processPart, hs2, hu2, hn2, lookupStat, setStat]
  have h2r : processPart usageOf pathExists
      ⟨[(m2.mountpoint, u2)], [((u2.total, u2.used), m2.mountpoint)]⟩ m1 =
      ⟨[(m1.mountpoint, u1)], [((u1.total, u1.used), m1.mountpoint)]⟩ := by
    simp [processPart, hs1, hu1, hn1, lookupStat, replaceShorter, setStat, ← hkey, hlen]
  constructor
  · unfold selectReportableDisks scanParts
    rw [List.foldl_cons, h1, List.foldl_cons, List.foldl_nil, h2]
    rfl
  · unfold selectReportableDisks scanParts
    rw [List.foldl_cons, h1r, List.foldl_cons, List.foldl_nil, h2r]
    rfl

/-! ### The claims -/

/-- C1: for every input sequence of mounts and every usage function (and
path-existence predicate), no two entries of the final report share the
same `(usage.totalBytes, usage.usedBytes)` pair. -/
theorem c1_dedup_key_unique (mounts : List MountEntry)
    (usageOf : String → Option UsageSample) (pathExists : String → Bool) :
    (selectReportableDisks mounts usageOf pathExists).Pairwise
      (fun p q => (p.2.total, p.2.used) ≠ (q.2.total, q.2.used)) := by
  have hknd := (scanParts_inv mounts usageOf pathExists).2.1
  rw [List.Nodup, List.pairwise_map] at hknd
  exact ((select_perm mounts usageOf pathExists).pairwise_iff
    (fun h1 h2 => h1 h2.symm)).mpr hknd

/-- C2 as stated is false on the code: with the byte counts the claim
itself fixes (`totalBytes = 100`, `usedBytes = 50`) both `/data` and
`/mnt/data/bind` fall below the 1 GiB threshold of line 114, so the output
contains no entry at all for that key — in particular no entry with mount
point `"/data"`. -/
theorem c2_counterexample_small_sizes :
    selectReportableDisks bindMounts bindUsageSmall (fun _ => true) = [] ∧
    ¬ ∃ p ∈ selectReportableDisks bindMounts bindUsageSmall (fun _ => true),
        p.1 = "/data" := by decide

/-- C2 (amended): two surviving mounts sharing a `(totalBytes, usedBytes)`
key yield exactly one entry, carrying the strictly shorter mount point,
whichever is enumerated first; in particular for `/data` and
`/mnt/data/bind` with duplicate-key byte counts that survive the threshold
(`totalBytes = 2 GiB`, `usedBytes = 50`) the single entry has mount point
`"/data"`; and a later duplicate whose path is not strictly shorter (here
`/ab` after `/aa`, equal length) is discarded. -/
theorem c2_shorter_path_preference :
    (∀ (m1 m2 : MountEntry) (usageOf : String → Option UsageSample)
        (pathExists : String → Bool) (u1 u2 : UsageSample),
      isSkipped pathExists m1 = false → isSkipped pathExists m2 = false →
      usageOf m1.mountpoint = some u1 → usageOf m2.mountpoint = some u2 →
      (u1.total, u1.used) = (u2.total, u2.used) →
      minTotalBytes ≤ u1.total →
      m1.mountpoint.length < m2.mountpoint.length →
      selectReportableDisks [m1, m2] usageOf pathExists = [(m1.mountpoint, u1)] ∧
      selectReportableDisks [m2, m1] usageOf pathExists = [(m1.mountpoint, u1)]) ∧
    (selectReportableDisks bindMounts bindUsage (fun _ => true) =
        [("/data", bindSample)] ∧
      selectReportableDisks bindMounts.reverse bindUsage (fun _ => true) =
        [("/data", bindSample)] ∧
      selectReportableDisks tieMounts tieUsage (fun _ => true) =
        [("/aa", bindSample)]) :=
  ⟨fun m1 m2 usageOf pathExists u1 u2 hs1 hs2 hu1 hu2 hkey hthr hlen =>
    select_two_same_key m1 m2 usageOf pathExists u1 u2 hs1 hs2 hu1 hu2 hkey hthr hlen,
   by decide⟩

theorem c2_shorter_path_preference_witness :
    selectReportableDisks
        [⟨"/dev/sdb1", "/data", "ext4"⟩, ⟨"/dev/sdb1", "/mnt/data/bind", "ext4"⟩]
        bindUsage (fun _ => true) = [("/data", bindSample)] :=
  (c2_shorter_path_preference.1 ⟨"/dev/sdb1", "/data", "ext4"⟩
    ⟨"/dev/sdb1", "/mnt/data/bind", "ext4"⟩ bindUsage (fun _ => true)
    bindSample bindSample (by decide) (by decide) (by decide) (by decide)
    rfl (by decide) (by decide)).1

/-- C3: the disk reporter is a deterministic function of its inputs:
running it twice on the same data gives the same output, and more
strongly the output only depends on the values the usage function and the
path-existence predicate take on the mount points of the input sequence. -/
theorem c3_deterministic :
    (∀ (mounts : List MountEntry) (usageOf : String → Option UsageSample)
        (pathExists : String → Bool),
      selectReportableDisks mounts usageOf pathExists =
        selectReportableDisks mounts usageOf pathExists) ∧
    (∀ (mounts : List MountEntry) (u1 u2 : String → Option UsageSample)
        (e1 e2 : String → Bool),
      (∀ part ∈ mounts, u1 part.mountpoint = u2 part.mountpoint ∧
        e1 part.mountpoint = e2 part.mountpoint) →
      selectReportableDisks mounts u1 e1 = selectReportableDisks mounts u2 e2) := by
  refine ⟨fun _ _ _ => rfl, ?_⟩
  intro mounts u1 u2 e1 e2 h
  unfold selectReportableDisks
  rw [scanParts_congr u1 u2 e1 e2 h]

theorem c3_deterministic_witness :
    selectReportableDisks mountsThree usageThree (fun _ => true) =
      selectReportableDisks mountsThree
        (fun mp => if mp = "/nowhere" then none else usageThree mp)
        (fun mp => decide (mp.length < 100)) :=
  c3_deterministic.2 mountsThree _ _ _ _ (by decide)

/-- C4: a failing usage lookup (modelled by `usageOf` returning `none`,
the exception swallowed at line 133) silently drops exactly that mount and
never aborts the report; with three otherwise-valid mounts and the lookup
failing for `/b`, the output is exactly the other two. -/
theorem c4_usage_failure_dropped :
    (∀ (part : MountEntry) (ms1 ms2 : List MountEntry)
        (usageOf : String → Option UsageSample) (pathExists : String → Bool),
      usageOf part.mountpoint = none →
      selectReportableDisks (ms1 ++ part :: ms2) usageOf pathExists =
        selectReportableDisks (ms1 ++ ms2) usageOf pathExists) ∧
    selectReportableDisks dropMounts dropUsage (fun _ => true) =
      [("/a", dropSampleA), ("/c", dropSampleC)] := by
  constructor
  · intro part ms1 ms2 usageOf pathExists hu
    unfold selectReportableDisks
    rw [scanParts_insert_noop ms1 ms2 part usageOf pathExists
      (fun st => processPart_usage_none pathExists st hu)]
  · decide

theorem c4_usage_failure_dropped_witness :
    selectReportableDisks ([] ++ ⟨"/dev/sdd2", "/b", "ext4"⟩ :: []) dropUsage
        (fun _ => true) =
      selectReportableDisks ([] ++ []) dropUsage (fun _ => true) :=
  c4_usage_failure_dropped.1 ⟨"/dev/sdd2", "/b", "ext4"⟩ [] [] dropUsage
    (fun _ => true) (by decide)

/-- C5: the final output is sorted ascending in the lexicographic
code-point order on mount points, the mount points are pairwise distinct,
and the surviving mounts `/var`, `/`, `/home` come out in the order
`["/", "/home", "/var"]`. -/
theorem c5_sorted_output :
    (∀ (mounts : List MountEntry) (usageOf : String → Option UsageSample)
        (pathExists : String → Bool),
      List.Sorted mountLe (selectReportableDisks mounts usageOf pathExists) ∧
      (selectReportableDisks mounts usageOf pathExists).Pairwise
        (fun p q => p.1 ≠ q.1)) ∧
    selectReportableDisks mountsThree usageThree (fun _ => true) =
      [("/", ⟨3 * 1024 ^ 3, 2000, 3 * 1024 ^ 3 - 2000, 50⟩),
       ("/home", ⟨4 * 1024 ^ 3, 3000, 4 * 1024 ^ 3 - 3000, 50⟩),
       ("/var", ⟨2 * 1024 ^ 3, 1000, 2 * 1024 ^ 3 - 1000, 50⟩)] := by
  constructor
  · intro mounts usageOf pathExists
    constructor
    · exact List.sorted_insertionSort mountLe _
    · have hfnd := (scanParts_inv mounts usageOf pathExists).2.2.1
      rw [List.Nodup, List.pairwise_map] at hfnd
      exact ((select_perm mounts usageOf pathExists).pairwise_iff
        (fun h1 h2 => h1 h2.symm)).mpr hfnd
  · decide

/-- C6: every reported entry's `totalBytes` is at least the 1 GiB minimum
of line 114, and a 2 GiB mount matching no other exclusion criterion is
reported. -/
theorem c6_threshold :
    (∀ (mounts : List MountEntry) (usageOf : String → Option UsageSample)
        (pathExists : String → Bool) (p : String × UsageSample),
      p ∈ selectReportableDisks mounts usageOf pathExists →
      minTotalBytes ≤ p.2.total) ∧
    selectReportableDisks [bigMount] bigUsage (fun _ => true) =
      [("/big", bigSample)] := by
  constructor
  · intro mounts usageOf pathExists p hp
    have hmem := (select_perm mounts usageOf pathExists).mem_iff.mp hp
    exact ((scanParts_inv mounts usageOf pathExists).2.2.2 p hmem).2
  · decide

theorem c6_threshold_witness : minTotalBytes ≤ bigSample.total :=
  c6_threshold.1 [bigMount] bigUsage (fun _ => true) ("/big", bigSample) (by decide)

/-- C7: a mount matching any filtering criterion of lines 100-107 is
excluded before the usage lookup: its loop iteration is a no-op for the
output and it contributes no `disk_usage` call; in particular a 5 GiB
mount at `/proc/mounted-extra` is excluded. -/
theorem c7_excluded_before_usage :
    (∀ (part : MountEntry) (pathExists : String → Bool),
      isSkipped pathExists part = true →
      (∀ (ms1 ms2 : List MountEntry) (usageOf : String → Option UsageSample),
        selectReportableDisks (ms1 ++ part :: ms2) usageOf pathExists =
          selectReportableDisks (ms1 ++ ms2) usageOf pathExists) ∧
      (∀ ms1 ms2 : List MountEntry,
        usageCalls (ms1 ++ part :: ms2) pathExists =
          usageCalls (ms1 ++ ms2) pathExists)) ∧
    (isSkipped (fun _ => true) procMount = true ∧
     selectReportableDisks [procMount] procUsage (fun _ => true) = [] ∧
     usageCalls [procMount] (fun _ => true) = []) := by
  constructor
  · intro part pathExists hskip
    constructor
    · intro ms1 ms2 usageOf
      unfold selectReportableDisks
      rw [scanParts_insert_noop ms1 ms2 part usageOf pathExists
        (fun st => processPart_skipped usageOf st hskip)]
    · intro ms1 ms2
      simp [usageCalls, List.filter_append, hskip]
  · decide

theorem c7_excluded_before_usage_witness :
    usageCalls ([⟨"/dev/sda1", "/", "ext4"⟩] ++ procMount :: []) (fun _ => true) =
      usageCalls ([⟨"/dev/sda1", "/", "ext4"⟩] ++ []) (fun _ => true) :=
  (c7_excluded_before_usage.1 procMount (fun _ => true) (by decide)).2
    [⟨"/dev/sda1", "/", "ext4"⟩] []

/-- C8: with an empty mount list, or when no mount survives the filter,
the reporter returns the empty sequence rather than failing, and the
formatting layer then renders the single no-data line of line 151. -/
theorem c8_no_survivors :
    (∀ (usageOf : String → Option UsageSample) (pathExists : String → Bool),
      selectReportableDisks [] usageOf pathExists = []) ∧
    (∀ (mounts : List MountEntry) (usageOf : String → Option UsageSample)
        (pathExists : String → Bool),
      mounts.filter (fun part => !(isSkipped pathExists part)) = [] →
      selectReportableDisks mounts usageOf pathExists = []) ∧
    (∀ (fmtEntry : String → UsageSample → List String) (mounts : List MountEntry)
        (usageOf : String → Option UsageSample) (pathExists : String → Bool),
      selectReportableDisks mounts usageOf pathExists = [] →
      diskSectionLines fmtEntry (selectReportableDisks mounts usageOf pathExists) =
        [noDataLine]) := by
  refine ⟨fun _ _ => rfl, ?_, ?_⟩
  · intro mounts usageOf pathExists hf
    have hall : ∀ part ∈ mounts, isSkipped pathExists part = true := by
      intro part hp
      by_contra hc
      rw [Bool.not_eq_true] at hc
      have hmem : part ∈ mounts.filter (fun part => !(isSkipped pathExists part)) := by
        rw [List.mem_filter]
        refine ⟨hp, ?_⟩
        rw [hc]
        rfl
      rw [hf] at hmem
      exact List.not_mem_nil _ hmem
    unfold selectReportableDisks
    rw [scanParts_all_skipped usageOf hall]
    rfl
  · intro fmtEntry mounts usageOf pathExists h
    rw [h]
    rfl

theorem c8_no_survivors_witness :
    selectReportableDisks [tmpfsMount] (fun _ => none) (fun _ => true) = [] :=
  c8_no_survivors.2.1 [tmpfsMount] (fun _ => none) (fun _ => true) (by decide)

/-- C9: `create_bar` is total, always returns `"["` ++ a bar of exactly
`len` cells ++ `"]"` (so its length is `len + 2`), the filled-cell count
never exceeds `len`, and any percent outside `[0, 100]` is clamped to `0`,
giving an entirely empty bar. -/
theorem c9_create_bar_shape :
    (∀ (percent : Rat) (len : Nat),
      ∃ filled, filled ≤ len ∧
        create_bar percent len =
          "[" ++ String.mk (List.replicate filled '■' ++
            List.replicate (len - filled) '□') ++ "]" ∧
        (create_bar percent len).length = len + 2) ∧
    (∀ (percent : Rat) (len : Nat), ¬(0 ≤ percent ∧ percent ≤ 100) →
      create_bar percent len =
        "[" ++ String.mk (List.replicate len '□') ++ "]") := by
  constructor
  · intro percent len
    refine ⟨barFilled percent len, barFilled_le percent len,
      create_bar_eq percent len, ?_⟩
    rw [create_bar_eq]
    show ("[".data ++ ((List.replicate (barFilled percent len) '■' ++
      List.replicate (len - barFilled percent len) '□') ++ "]".data)).length = len + 2
    rw [List.length_append, List.length_append, List.length_append,
      List.length_replicate, List.length_replicate]
    have := barFilled_le percent len
    show 1 + (barFilled percent len + (len - barFilled percent len) + 1) = len + 2
    omega
  · intro percent len h
    rw [create_bar_eq]
    have hz : barFilled percent len = 0 := by
      unfold barFilled
      rw [if_neg h]
      norm_num
    rw [hz]
    simp

theorem c9_create_bar_shape_witness :
    create_bar 150 4 = "[" ++ String.mk (List.replicate 4 '□') ++ "]" :=
  c9_create_bar_shape.2 150 4 (by norm_num)

/-- C10: the prefix filter of lines 103-107 compares against `"/etc/"`,
`"/proc/"`, `"/sys/"`, `"/run/"`, `"/dev/"` — each with a trailing
slash — so a mount point that is exactly one of the five roots is not
excluded by it, and an otherwise-innocuous mount at exactly `/etc` passes
the whole filter. -/
theorem c10_exact_roots_not_excluded :
    startsWithExcluded "/etc" = false ∧ startsWithExcluded "/proc" = false ∧
    startsWithExcluded "/sys" = false ∧ startsWithExcluded "/run" = false ∧
    startsWithExcluded "/dev" = false ∧
    isSkipped (fun _ => true) ⟨"/dev/sda1", "/etc", "ext4"⟩ = false := by decide

end Yxzt
